import Mathlib

/-!
# Verification of the `file_io_benchmark.py` benchmark engine

Shallow embedding of the class `FileIOBenchmark` from `file_io_benchmark.py`.

Modelling conventions:

* Wall-clock readings of `time.time()` are rationals.  Each timed primitive
  receives the two readings `start_time` and `end_time` that the source takes
  around its timed region, and computes `elapsed = end_time - start_time`
  exactly as the source does.  Monotonicity of the clock
  (`start_time ≤ end_time`) is an explicit hypothesis where needed.
* `random.randint(0, b)` is modelled by `randint b r = r % (b + 1)` where `r`
  is the raw draw of the pseudo-random generator, supplied by an oracle
  `rands : ℕ → ℕ` (one draw per loop iteration); this ranges over exactly the
  inclusive interval `[0, b]` that `random.randint` ranges over.
* Byte counts, block sizes and operation counts are natural numbers; reported
  metrics are rationals.  Python float arithmetic is modelled by exact
  rational arithmetic.
* The scratch directory is the set of file names it contains
  (`Finset String`); file I/O performed by the random-access primitives is
  recorded as a trace of `IOEvent`s in the order the source performs them.
* Python `dict`s appearing in run results are association lists with distinct
  keys; a stored value is a `PyVal` (a number, or a non-numeric string such as
  `speed_formatted`, which `isinstance(value, (int, float))` filters out
  during aggregation).
* Fallible library calls (`statistics.mean` on an empty list,
  `statistics.stdev` on fewer than two points, both of which raise
  `StatisticsError`) return `Option`; the source's guards are translated
  verbatim, so totality theorems state that the guarded code never raises.
-/

namespace FileIOBenchmark

/-- A single I/O action performed inside a timed region, in program order. -/
inductive IOEvent where
  | write (offset : ℕ)
  | read (offset : ℕ)
  | flush
  | fsync
deriving DecidableEq

/-- Model of `random.randint(0, b)`: the raw PRNG draw `r` reduced to the
inclusive range `[0, b]`. -/
def randint (b : ℕ) (r : ℕ) : ℕ := r % (b + 1)

/-- One offset of the random-access loops:
`offset = random.randint(0, max_offset // block_size) * block_size` with
`max_offset = file_size - block_size` (lines 118, 123 and 152, 157 of the
source). -/
def randomOffset (file_size block_size : ℕ) (r : ℕ) : ℕ :=
  randint ((file_size - block_size) / block_size) r * block_size

/-- Numeric part of the dict returned by the sequential tests
(`speed_formatted`, a string, is omitted: it never takes part in
aggregation). -/
structure SeqResult where
  duration_sec : ℚ
  speed_bytes_per_sec : ℚ
deriving DecidableEq

/-- Embedding of `test_sequential_write` (lines 53-75): the timed region writes
`file_size // block_size` blocks, flushes and fsyncs; then
`elapsed = time.time() - start_time` and
`speed = file_size / elapsed if elapsed > 0 else 0`. -/
def test_sequential_write (file_size block_size : ℕ) (start_time end_time : ℚ) : SeqResult :=
  let elapsed : ℚ := end_time - start_time
  { duration_sec := elapsed
    speed_bytes_per_sec := if 0 < elapsed then (file_size : ℚ) / elapsed else 0 }

/-- Embedding of `test_sequential_read` (lines 77-105): same reported arithmetic as
`test_sequential_write`, with the timed region being the read loop. -/
def test_sequential_read (file_size block_size : ℕ) (start_time end_time : ℚ) : SeqResult :=
  let elapsed : ℚ := end_time - start_time
  { duration_sec := elapsed
    speed_bytes_per_sec := if 0 < elapsed then (file_size : ℚ) / elapsed else 0 }

/-- The dict returned by the random-access tests. -/
structure RandResult where
  duration_sec : ℚ
  iops : ℚ
  avg_latency_ms : ℚ
  operations : ℕ
deriving DecidableEq

/-- Embedding of `test_random_write` (lines 107-140): after pre-allocating the file, the
timed region performs `num_operations` block writes at offsets
`randint(0, (file_size - block_size) // block_size) * block_size`, then one
`flush` and one `fsync`; `iops = num_operations / elapsed if elapsed > 0 else 0`
and `latency_ms = elapsed / num_operations * 1000 if num_operations > 0 else 0`.
The second component is the trace of I/O events of the timed region, in
program order. -/
def test_random_write (file_size num_operations block_size : ℕ) (rands : ℕ → ℕ)
    (start_time end_time : ℚ) : RandResult × List IOEvent :=
  let elapsed : ℚ := end_time - start_time
  ({ duration_sec := elapsed
     iops := if 0 < elapsed then (num_operations : ℚ) / elapsed else 0
     avg_latency_ms :=
       if 0 < num_operations then elapsed / (num_operations : ℚ) * 1000 else 0
     operations := num_operations },
   ((List.range num_operations).map fun i =>
      IOEvent.write (randomOffset file_size block_size (rands i)))
     ++ [IOEvent.flush, IOEvent.fsync])

/-- Embedding of `test_random_read` (lines 142-172): the timed region performs
`num_operations` block reads at random offsets with no flush; reported
arithmetic is identical to `test_random_write`. -/
def test_random_read (file_size num_operations block_size : ℕ) (rands : ℕ → ℕ)
    (start_time end_time : ℚ) : RandResult × List IOEvent :=
  let elapsed : ℚ := end_time - start_time
  ({ duration_sec := elapsed
     iops := if 0 < elapsed then (num_operations : ℚ) / elapsed else 0
     avg_latency_ms :=
       if 0 < num_operations then elapsed / (num_operations : ℚ) * 1000 else 0
     operations := num_operations },
   (List.range num_operations).map fun i =>
      IOEvent.read (randomOffset file_size block_size (rands i)))

/-- Offsets of the write events of a trace, in order. -/
def writeOffsets (trace : List IOEvent) : List ℕ :=
  trace.filterMap fun ev =>
    match ev with
    | IOEvent.write o => some o
    | _ => none

/-- Offsets of the read events of a trace, in order. -/
def readOffsets (trace : List IOEvent) : List ℕ :=
  trace.filterMap fun ev =>
    match ev with
    | IOEvent.read o => some o
    | _ => none

/-- The literal `"small_file_"` used by `test_file_creation` (line 180). -/
def smallFileStem : String := "small_file_"

/-- The literal `".bin"` extension of the small files. -/
def binExt : String := ".bin"

/-- The name `f"small_file_{i}.bin"` given to the i-th created file. -/
def small_file_name (i : ℕ) : String := smallFileStem ++ toString i ++ binExt

/-- Whether a name matches the glob pattern `"small_file_*.bin"` used by
`test_file_deletion` (line 197): the name is `"small_file_"` followed by an
arbitrary string followed by `".bin"`.  (Character-list primitives are used
because they are the executable form of the string operations.) -/
def matchesSmallFilePattern (name : String) : Bool :=
  smallFileStem.data.isPrefixOf name.data
    && binExt.data.isSuffixOf (name.data.drop smallFileStem.length)

/-- The dict returned by `test_file_creation`. -/
structure CreateResult where
  duration_sec : ℚ
  files_created : ℕ
  files_per_sec : ℚ
  avg_time_per_file_ms : ℚ
deriving DecidableEq

/-- Embedding of `test_file_creation` (lines 174-192): writes files
`small_file_0.bin … small_file_(num_files-1).bin` of `file_size` bytes each
into the scratch directory `dir` (`open(..., 'wb')` creates or overwrites, so
the directory becomes the union).  Returns the metric record and the new
directory contents. -/
def test_file_creation (dir : Finset String) (num_files file_size : ℕ)
    (start_time end_time : ℚ) : CreateResult × Finset String :=
  let elapsed : ℚ := end_time - start_time
  ({ duration_sec := elapsed
     files_created := num_files
     files_per_sec := if 0 < elapsed then (num_files : ℚ) / elapsed else 0
     avg_time_per_file_ms :=
       if 0 < num_files then elapsed / (num_files : ℚ) * 1000 else 0 },
   dir ∪ (Finset.range num_files).image small_file_name)

/-- The dict returned by `test_file_deletion`. -/
structure DeleteResult where
  duration_sec : ℚ
  files_deleted : ℕ
  files_per_sec : ℚ
  avg_time_per_file_ms : ℚ
deriving DecidableEq

/-- Embedding of `test_file_deletion` (lines 194-212): lists
`self.test_dir.glob("small_file_*.bin")`, sets
`actual_count = len(files)`, unlinks each listed file, and reports counts
computed from `actual_count` only (its `num_files` argument is never read).
Returns the metric record and the new directory contents. -/
def test_file_deletion (dir : Finset String) (num_files : ℕ)
    (start_time end_time : ℚ) : DeleteResult × Finset String :=
  let files := dir.filter fun nm => matchesSmallFilePattern nm
  let actual_count := files.card
  let elapsed : ℚ := end_time - start_time
  ({ duration_sec := elapsed
     files_deleted := actual_count
     files_per_sec := if 0 < elapsed then (actual_count : ℚ) / elapsed else 0
     avg_time_per_file_ms :=
       if 0 < actual_count then elapsed / (actual_count : ℚ) * 1000 else 0 },
   dir \ files)

/-- The dict returned by `_calculate_statistics` (`std_dev` is an
irrational square root in general, so the record carries its square, which
determines it; `std_dev == 0` iff `std_dev_sq == 0`). -/
structure Stats where
  mean : ℚ
  std_dev_sq : ℚ
deriving DecidableEq

/-- Arithmetic mean `sum / n` (the value `statistics.mean` computes on a
nonempty list). -/
def meanSpec (values : List ℚ) : ℚ := values.sum / (values.length : ℚ)

/-- Square of the sample standard deviation
`Σ (x - mean)² / (n - 1)` (the square of what `statistics.stdev` computes
when `n ≥ 2`). -/
def sampleVarSpec (values : List ℚ) : ℚ :=
  ((values.map fun x => (x - meanSpec values) ^ 2).sum) / ((values.length : ℚ) - 1)

/-- Model of `statistics.mean`: raises `StatisticsError` (here: `none`) on an empty
list, otherwise the arithmetic mean. -/
def statistics_mean (values : List ℚ) : Option ℚ :=
  if values.isEmpty then none else some (meanSpec values)

/-- Square of `statistics.stdev`: raises `StatisticsError` (here: `none`)
on fewer than two data points, otherwise the sample variance. -/
def statistics_stdev_sq (values : List ℚ) : Option ℚ :=
  if 2 ≤ values.length then some (sampleVarSpec values) else none

/-- Embedding of `_calculate_statistics` (lines 377-385): returns `{'mean': 0, 'std_dev': 0}`
for an empty list; otherwise `statistics.mean(values)` and
`statistics.stdev(values) if len(values) > 1 else 0`.  `none` would mean an
uncaught `StatisticsError`. -/
def _calculate_statistics (values : List ℚ) : Option Stats :=
  if values.isEmpty then some { mean := 0, std_dev_sq := 0 }
  else do
    let m ← statistics_mean values
    let sd ← if 1 < values.length then statistics_stdev_sq values else some 0
    pure { mean := m, std_dev_sq := sd }

/-- A value stored in a test's result dict: a number, or a non-numeric
string (such as `speed_formatted`). -/
inductive PyVal where
  | num (q : ℚ)
  | str (s : String)
deriving DecidableEq

/-- Numeric projection implementing the `isinstance(value, (int, float))` filter. -/
def PyVal.asNum : PyVal → Option ℚ
  | PyVal.num q => some q
  | PyVal.str _ => none

/-- One test's result dict: metric name ↦ value. -/
abbrev MetricRecord := List (String × PyVal)

/-- One run's result dict: test identifier ↦ metric record
(`self.results`). -/
abbrev RunResult := List (String × MetricRecord)

/-- The numeric value of metric `m` of test `t` in one run, if the run has
the test, the test has the metric, and the value is numeric — exactly the
condition under which the collection loops of `_save_all_results`
(lines 533-542) append the value. -/
def metricValue (run : RunResult) (t m : String) : Option ℚ :=
  (List.lookup t run).bind fun td => (List.lookup m td).bind PyVal.asNum

/-- Whether the collection loops of `_save_all_results` pick up metric `m`
of test `t` from the given run. -/
def metricPresent (run : RunResult) (t m : String) : Bool :=
  (metricValue run t m).isSome

/-- The value series `metrics[t][m]` built by the collection loops of
`_save_all_results` (lines 533-542): the runs are visited in order and each
run contributes its value exactly when the metric is present and numeric. -/
def collectSeries (runs : List RunResult) (t m : String) : List ℚ :=
  runs.filterMap fun run => metricValue run t m

/-- Python `min` over a nonempty sequence (a left fold of binary `min` over
the remaining elements); `0` as a dummy for the empty list, on which the
source never calls it. -/
def pymin : List ℚ → ℚ
  | [] => 0
  | x :: xs => xs.foldl min x

/-- Python `max` over a nonempty sequence. -/
def pymax : List ℚ → ℚ
  | [] => 0
  | x :: xs => xs.foldl max x

/-- One entry of `aggregated_statistics[test_name][metric_name]`
(lines 549-555). -/
structure AggEntry where
  mean : ℚ
  std_dev_sq : ℚ
  min : ℚ
  max : ℚ
  values : List ℚ
deriving DecidableEq

/-- The aggregated statistics of `_save_all_results` for one
(test identifier, metric) pair: `none` when the pair is observed in no run
(no dict entry is created), otherwise the stats/min/max/values record built
on lines 544-555. -/
def aggEntry (runs : List RunResult) (t m : String) : Option AggEntry :=
  let values := collectSeries runs t m
  if values.isEmpty then none
  else do
    let s ← _calculate_statistics values
    pure { mean := s.mean, std_dev_sq := s.std_dev_sq
           min := pymin values, max := pymax values, values := values }

/-- The JSON artifact written by `_save_all_results` (lines 557-563). -/
structure BenchmarkReport where
  timestamp : String
  test_directory : String
  num_runs : ℕ
  aggregated_statistics : String → String → Option AggEntry
  all_runs : List RunResult

/-- Embedding of `_save_all_results` (lines 522-568): the report records the timestamp,
the scratch-directory path, `len(self.all_runs)`, the aggregated statistics
and the raw run history. -/
def _save_all_results (timestamp test_directory : String)
    (runsIn : List RunResult) : BenchmarkReport :=
  { timestamp := timestamp
    test_directory := test_directory
    num_runs := runsIn.length
    aggregated_statistics := fun t m => aggEntry runsIn t m
    all_runs := runsIn }

/-- The scratch directory as seen on disk: `none` when the path does not
exist, otherwise the set of file names in it. -/
abbrev ScratchDir := Option (Finset String)

/-- Embedding of `setup` (lines 26-30): `shutil.rmtree` any pre-existing directory, then
`mkdir` — the result is a fresh empty directory whatever was there. -/
def setup (fs : ScratchDir) : ScratchDir :=
  some (∅ : Finset String)

/-- Embedding of `cleanup` (lines 32-35): `shutil.rmtree` if the directory exists,
otherwise leave the (absent) path alone. -/
def cleanup (fs : ScratchDir) : ScratchDir :=
  if fs.isSome then none else fs

/-- Embedding of `run_benchmark_suite` (lines 214-337): `try: setup(); <workloads>
finally: cleanup()`.  The workload sequence is abstracted as `body`, which
transforms the on-disk state and either returns a run result or raises
(`Except.error`); the `finally` clause runs `cleanup` on the state at which
the body finished or raised, and the outcome — normal or exceptional —
propagates unchanged afterwards. -/
def run_benchmark_suite (body : ScratchDir → ScratchDir × Except String RunResult)
    (fs : ScratchDir) : ScratchDir × Except String RunResult :=
  let fs1 := setup fs
  let r := body fs1
  (cleanup r.1, r.2)

/-! ## Helper lemmas -/

/-- The degenerate-timing contract shared by every primitive: a non-negative
duration, rate `amount / duration` whenever the duration is nonzero, and
rate `0` when the duration is zero. -/
def RateSpec (duration rate amount : ℚ) : Prop :=
  0 ≤ duration ∧ (duration ≠ 0 → rate = amount / duration) ∧ (duration = 0 → rate = 0)

theorem rateSpec_ite (s e amount : ℚ) (h : s ≤ e) :
    RateSpec (e - s) (if 0 < e - s then amount / (e - s) else 0) amount := by
  refine ⟨by linarith, fun hne => ?_, fun h0 => ?_⟩
  · have hpos : 0 < e - s := lt_of_le_of_ne (by linarith) (Ne.symm hne)
    simp [hpos]
  · simp [h0]

theorem randomOffset_bounds (file_size block_size r : ℕ) (hb : 0 < block_size)
    (hle : block_size ≤ file_size) :
    randomOffset file_size block_size r ≤ file_size - block_size ∧
    block_size ∣ randomOffset file_size block_size r ∧
    randomOffset file_size block_size r + block_size ≤ file_size := by
  unfold randomOffset randint
  refine ⟨?_, dvd_mul_left block_size _, ?_⟩
  · calc r % ((file_size - block_size) / block_size + 1) * block_size
        ≤ (file_size - block_size) / block_size * block_size :=
          Nat.mul_le_mul_right _
            (Nat.lt_succ_iff.mp (Nat.mod_lt _ (Nat.succ_pos _)))
      _ ≤ file_size - block_size := Nat.div_mul_le_self _ _
  · have h1 : r % ((file_size - block_size) / block_size + 1) * block_size
        ≤ file_size - block_size := by
      calc r % ((file_size - block_size) / block_size + 1) * block_size
          ≤ (file_size - block_size) / block_size * block_size :=
            Nat.mul_le_mul_right _
              (Nat.lt_succ_iff.mp (Nat.mod_lt _ (Nat.succ_pos _)))
        _ ≤ file_size - block_size := Nat.div_mul_le_self _ _
    omega

theorem _calculate_statistics_eq (values : List ℚ) :
    _calculate_statistics values =
      some { mean := if values.isEmpty then 0 else meanSpec values
             std_dev_sq := if 1 < values.length then sampleVarSpec values else 0 } := by
  unfold _calculate_statistics statistics_mean statistics_stdev_sq
  rcases values with _ | ⟨a, l⟩
  · simp
  · simp only [List.isEmpty_cons, if_false, Bool.false_eq_true, List.length_cons]
    by_cases h : 1 < (a :: l).length
    · simp_all [Option.bind_eq_bind, Nat.succ_le_iff]
    · simp_all

/-- Expansion of a sum of squared deviations about an arbitrary centre. -/
theorem sum_sq_dev (values : List ℚ) (c : ℚ) :
    (values.map fun x => (x - c) ^ 2).sum
      = (values.map fun x => x ^ 2).sum - 2 * c * values.sum
          + (values.length : ℚ) * c ^ 2 := by
  induction values with
  | nil => simp
  | cons a l ih =>
    simp only [List.map_cons, List.sum_cons, ih, List.length_cons]
    push_cast
    ring

theorem foldl_min_le_self (l : List ℚ) (a : ℚ) : l.foldl min a ≤ a := by
  induction l generalizing a with
  | nil => exact le_refl a
  | cons x xs ih => exact le_trans (ih (min a x)) (min_le_left a x)

theorem foldl_min_le_mem (l : List ℚ) (a : ℚ) : ∀ x ∈ l, l.foldl min a ≤ x := by
  induction l generalizing a with
  | nil => intro x hx; cases hx
  | cons y ys ih =>
    intro x hx
    rcases List.mem_cons.mp hx with rfl | hx
    · exact le_trans (foldl_min_le_self ys (min a x)) (min_le_right a x)
    · exact ih (min a y) x hx

theorem foldl_min_choice (l : List ℚ) (a : ℚ) :
    l.foldl min a = a ∨ l.foldl min a ∈ l := by
  induction l generalizing a with
  | nil => exact Or.inl rfl
  | cons x xs ih =>
    rcases ih (min a x) with h | h
    · rw [List.foldl_cons, h]
      rcases min_cases a x with ⟨hm, _⟩ | ⟨hm, _⟩
      · exact Or.inl hm
      · exact Or.inr (by rw [hm]; exact List.mem_cons_self x xs)
    · exact Or.inr (List.mem_cons_of_mem x h)

theorem le_foldl_max_self (l : List ℚ) (a : ℚ) : a ≤ l.foldl max a := by
  induction l generalizing a with
  | nil => exact le_refl a
  | cons x xs ih => exact le_trans (le_max_left a x) (ih (max a x))

theorem mem_le_foldl_max (l : List ℚ) (a : ℚ) : ∀ x ∈ l, x ≤ l.foldl max a := by
  induction l generalizing a with
  | nil => intro x hx; cases hx
  | cons y ys ih =>
    intro x hx
    rcases List.mem_cons.mp hx with rfl | hx
    · exact le_trans (le_max_right a x) (le_foldl_max_self ys (max a x))
    · exact ih (max a y) x hx

theorem foldl_max_choice (l : List ℚ) (a : ℚ) :
    l.foldl max a = a ∨ l.foldl max a ∈ l := by
  induction l generalizing a with
  | nil => exact Or.inl rfl
  | cons x xs ih =>
    rcases ih (max a x) with h | h
    · rw [List.foldl_cons, h]
      rcases max_cases a x with ⟨hm, _⟩ | ⟨hm, _⟩
      · exact Or.inl hm
      · exact Or.inr (by rw [hm]; exact List.mem_cons_self x xs)
    · exact Or.inr (List.mem_cons_of_mem x h)

theorem pymin_le (l : List ℚ) : ∀ x ∈ l, pymin l ≤ x := by
  rcases l with _ | ⟨a, l⟩
  · intro x hx; cases hx
  · intro x hx
    rcases List.mem_cons.mp hx with rfl | hx
    · exact foldl_min_le_self l x
    · exact foldl_min_le_mem l a x hx

theorem pymin_mem (l : List ℚ) (h : l ≠ []) : pymin l ∈ l := by
  rcases l with _ | ⟨a, l⟩
  · exact absurd rfl h
  · rcases foldl_min_choice l a with hc | hc
    · rw [show pymin (a :: l) = l.foldl min a from rfl, hc]
      exact List.mem_cons_self a l
    · exact List.mem_cons_of_mem a hc

theorem le_pymax (l : List ℚ) : ∀ x ∈ l, x ≤ pymax l := by
  rcases l with _ | ⟨a, l⟩
  · intro x hx; cases hx
  · intro x hx
    rcases List.mem_cons.mp hx with rfl | hx
    · exact le_foldl_max_self l x
    · exact mem_le_foldl_max l a x hx

theorem pymax_mem (l : List ℚ) (h : l ≠ []) : pymax l ∈ l := by
  rcases l with _ | ⟨a, l⟩
  · exact absurd rfl h
  · rcases foldl_max_choice l a with hc | hc
    · rw [show pymax (a :: l) = l.foldl max a from rfl, hc]
      exact List.mem_cons_self a l
    · exact List.mem_cons_of_mem a hc

theorem pymin_perm (l l' : List ℚ) (h : l.Perm l') : pymin l = pymin l' := by
  rcases l with _ | ⟨a, t⟩
  · rw [← List.Perm.nil_eq h]
  · have h' : l' ≠ [] := by
      intro he
      exact absurd (List.perm_nil.mp (he ▸ h)) (by simp)
    exact le_antisymm
      (pymin_le (a :: t) _ (h.mem_iff.mpr (pymin_mem l' h')))
      (pymin_le l' _ (h.mem_iff.mp (pymin_mem (a :: t) (by simp))))

theorem pymax_perm (l l' : List ℚ) (h : l.Perm l') : pymax l = pymax l' := by
  rcases l with _ | ⟨a, t⟩
  · rw [← List.Perm.nil_eq h]
  · have h' : l' ≠ [] := by
      intro he
      exact absurd (List.perm_nil.mp (he ▸ h)) (by simp)
    exact le_antisymm
      (le_pymax l' _ (h.mem_iff.mp (pymax_mem (a :: t) (by simp))))
      (le_pymax (a :: t) _ (h.mem_iff.mpr (pymax_mem l' h')))

theorem meanSpec_perm (l l' : List ℚ) (h : l.Perm l') : meanSpec l = meanSpec l' := by
  unfold meanSpec
  rw [h.sum_eq, h.length_eq]

theorem pymin_le_meanSpec (l : List ℚ) (h : l ≠ []) : pymin l ≤ meanSpec l := by
  have hlen : 0 < (l.length : ℚ) := by
    have := List.length_pos.mpr h
    exact_mod_cast this
  unfold meanSpec
  rw [le_div_iff₀ hlen, mul_comm]
  calc (l.length : ℚ) * pymin l = l.length • pymin l := by
        rw [nsmul_eq_mul]
    _ ≤ l.sum := List.card_nsmul_le_sum l (pymin l) (pymin_le l)

theorem meanSpec_le_pymax (l : List ℚ) (h : l ≠ []) : meanSpec l ≤ pymax l := by
  have hlen : 0 < (l.length : ℚ) := by
    have := List.length_pos.mpr h
    exact_mod_cast this
  unfold meanSpec
  rw [div_le_iff₀ hlen, mul_comm]
  calc l.sum ≤ l.length • pymax l := List.sum_le_card_nsmul l (pymax l) (le_pymax l)
    _ = (l.length : ℚ) * pymax l := by rw [nsmul_eq_mul]

/-- Closed form of `aggEntry`. -/
theorem aggEntry_eq (runs : List RunResult) (t m : String) :
    aggEntry runs t m =
      if (collectSeries runs t m).isEmpty then none
      else some { mean := meanSpec (collectSeries runs t m)
                  std_dev_sq :=
                    if 1 < (collectSeries runs t m).length then
                      sampleVarSpec (collectSeries runs t m)
                    else 0
                  min := pymin (collectSeries runs t m)
                  max := pymax (collectSeries runs t m)
                  values := collectSeries runs t m } := by
  unfold aggEntry
  by_cases h : (collectSeries runs t m).isEmpty
  · simp [h]
  · simp [h, _calculate_statistics_eq, Option.bind_eq_bind]

/-! ## Claims -/

/-- C1: for every workload primitive, the reported duration `end - start` is
non-negative under clock monotonicity, and each reported rate (sequential
throughput in bytes/second, random-access IOPS in operations/second,
metadata rate in files/second) equals its work amount divided by the
duration exactly when the duration is nonzero, while a zero duration yields
a reported rate of `0` rather than an error. -/
theorem c1_duration_and_rate (file_size block_size num_operations num_files
    per_file_size : ℕ) (rands : ℕ → ℕ) (dir : Finset String) (s e : ℚ)
    (h : s ≤ e) :
    RateSpec (test_sequential_write file_size block_size s e).duration_sec
      (test_sequential_write file_size block_size s e).speed_bytes_per_sec
      (file_size : ℚ) ∧
    RateSpec (test_sequential_read file_size block_size s e).duration_sec
      (test_sequential_read file_size block_size s e).speed_bytes_per_sec
      (file_size : ℚ) ∧
    RateSpec (test_random_write file_size num_operations block_size rands s e).1.duration_sec
      (test_random_write file_size num_operations block_size rands s e).1.iops
      (num_operations : ℚ) ∧
    RateSpec (test_random_read file_size num_operations block_size rands s e).1.duration_sec
      (test_random_read file_size num_operations block_size rands s e).1.iops
      (num_operations : ℚ) ∧
    RateSpec (test_file_creation dir num_files per_file_size s e).1.duration_sec
      (test_file_creation dir num_files per_file_size s e).1.files_per_sec
      (num_files : ℚ) ∧
    RateSpec (test_file_deletion dir num_files s e).1.duration_sec
      (test_file_deletion dir num_files s e).1.files_per_sec
      (((dir.filter fun nm => matchesSmallFilePattern nm).card : ℕ) : ℚ) :=
  ⟨rateSpec_ite s e _ h, rateSpec_ite s e _ h, rateSpec_ite s e _ h,
   rateSpec_ite s e _ h, rateSpec_ite s e _ h, rateSpec_ite s e _ h⟩

/-- Witness for C1 at a concrete invocation. -/
theorem c1_duration_and_rate_witness :
    RateSpec (test_sequential_write 1024 64 0 2).duration_sec
      (test_sequential_write 1024 64 0 2).speed_bytes_per_sec (1024 : ℚ) :=
  (c1_duration_and_rate 1024 64 10 5 4096 (fun i => i) ∅ 0 2 (by norm_num)).1

/-- C2: in the random-write and random-read loops, with a positive block
size not exceeding the file size, every accessed offset `o` satisfies
`0 ≤ o ≤ file_size - block_size` (the lower bound holds because offsets are
naturals), `o` is an exact multiple of `block_size`, and the accessed block
`[o, o + block_size)` never extends past end-of-file. -/
theorem c2_offset_bounds (file_size block_size num_operations : ℕ)
    (rands : ℕ → ℕ) (s e : ℚ) (hb : 0 < block_size)
    (hle : block_size ≤ file_size) :
    (∀ o ∈ writeOffsets (test_random_write file_size num_operations block_size rands s e).2,
       o ≤ file_size - block_size ∧ block_size ∣ o ∧ o + block_size ≤ file_size) ∧
    (∀ o ∈ readOffsets (test_random_read file_size num_operations block_size rands s e).2,
       o ≤ file_size - block_size ∧ block_size ∣ o ∧ o + block_size ≤ file_size) := by
  constructor
  · intro o ho
    simp only [writeOffsets, test_random_write, List.filterMap_append,
      List.filterMap_map, List.mem_append, List.mem_filterMap,
      List.mem_range, Function.comp] at ho
    rcases ho with ⟨i, _, hi⟩ | ho
    · obtain rfl : randomOffset file_size block_size (rands i) = o := by
        simpa using hi
      exact randomOffset_bounds file_size block_size (rands i) hb hle
    · simp at ho
  · intro o ho
    simp only [readOffsets, test_random_read, List.filterMap_map,
      List.mem_filterMap, List.mem_range, Function.comp] at ho
    rcases ho with ⟨i, _, hi⟩
    obtain rfl : randomOffset file_size block_size (rands i) = o := by
      simpa using hi
    exact randomOffset_bounds file_size block_size (rands i) hb hle

/-- Witness for C2 at a concrete invocation (1 MiB file, 4 KiB blocks,
one operation, PRNG draw 0, so the single accessed offset is 0). -/
theorem c2_offset_bounds_witness :
    (0 : ℕ) ≤ 1048576 - 4096 ∧ 4096 ∣ (0 : ℕ) ∧ (0 : ℕ) + 4096 ≤ 1048576 :=
  (c2_offset_bounds 1048576 4096 1 (fun i => i) 0 1 (by norm_num)
      (by norm_num)).1 0 (by decide)

theorem sampleVarSpec_nonneg (values : List ℚ) (h : 2 ≤ values.length) :
    0 ≤ sampleVarSpec values := by
  unfold sampleVarSpec
  have hn : (2 : ℚ) ≤ (values.length : ℚ) := by exact_mod_cast h
  refine div_nonneg (List.sum_nonneg ?_) (by linarith)
  intro x hx
  obtain ⟨y, _, rfl⟩ := List.mem_map.mp hx
  exact sq_nonneg _

/-- The computational form of the sample variance:
`var * n * (n-1) = n * Σ x² - (Σ x)²`. -/
theorem sampleVarSpec_mul (values : List ℚ) (h : 2 ≤ values.length) :
    sampleVarSpec values * ((values.length : ℚ) * ((values.length : ℚ) - 1))
      = (values.length : ℚ) * (values.map fun x => x ^ 2).sum - values.sum ^ 2 := by
  have hn : (2 : ℚ) ≤ (values.length : ℚ) := by exact_mod_cast h
  have hn0 : (values.length : ℚ) ≠ 0 := by linarith
  have hn1 : (values.length : ℚ) - 1 ≠ 0 := by linarith
  unfold sampleVarSpec
  rw [sum_sq_dev values (meanSpec values)]
  unfold meanSpec
  field_simp
  ring

theorem collectSeries_length (runs : List RunResult) (t m : String) :
    (collectSeries runs t m).length
      = (runs.filter fun r => metricPresent r t m).length := by
  induction runs with
  | nil => rfl
  | cons r rs ih =>
    cases hv : metricValue r t m with
    | none =>
      simp only [collectSeries, List.filterMap_cons, hv, List.filter_cons,
        metricPresent, Option.isSome_none, Bool.false_eq_true, if_false] at ih ⊢
      exact ih
    | some v =>
      simp only [collectSeries, List.filterMap_cons, hv, List.filter_cons,
        metricPresent, Option.isSome_some, if_true, List.length_cons] at ih ⊢
      omega

/-- Fixtures for the closed witnesses below: two runs sharing one test
identifier and one numeric metric, and a run lacking that metric. -/
def tKey : String := "rand_write_104857600"

def mKey : String := "iops"

def runA : RunResult := [(tKey, [(mKey, PyVal.num 3)])]

def runB : RunResult := [(tKey, [(mKey, PyVal.num 5)])]

def runC : RunResult := [( "file_creation", [( "files_per_sec", PyVal.num 7)])]

def tsLit : String := "2026-10-12 00:00:00"

def tdLit : String := "benchmark_temp"

/-- C7: the scratch-directory lifecycle of `run_benchmark_suite`: `setup`
replaces any pre-existing directory at the scratch path with a fresh empty
one; after the suite the scratch directory is removed whatever the body did
to it; and the body's outcome — the run result or the I/O failure — is
propagated unchanged after that cleanup. -/
theorem c7_scratch_lifecycle
    (body : ScratchDir → ScratchDir × Except String RunResult)
    (fs : ScratchDir) :
    setup fs = some (∅ : Finset String) ∧
    (run_benchmark_suite body fs).1 = none ∧
    (run_benchmark_suite body fs).2 = (body (setup fs)).2 := by
  refine ⟨rfl, ?_, rfl⟩
  show cleanup (body (setup fs)).1 = none
  unfold cleanup
  rcases (body (setup fs)).1 with _ | d <;> simp

/-- C10: `test_file_deletion` never reads its `num_files` argument: for the
same scratch-directory contents and the same timing, any two values of
`num_files` give the identical metric record and the identical resulting
directory, so the deleted count is determined solely by the files matching
the naming pattern actually on disk. -/
theorem c10_deletion_ignores_num_files (dir : Finset String) (n₁ n₂ : ℕ)
    (s e : ℚ) :
    test_file_deletion dir n₁ s e = test_file_deletion dir n₂ s e := rfl

/-- C4: `_calculate_statistics` never raises (always returns a record); on a
nonempty series the mean is the arithmetic mean; with fewer than two values
the standard deviation is `0` (so a single-run series reports
`std_dev == 0` without a division error); with at least two values the
squared standard deviation is the sample variance
`Σ (x - mean)² / (n - 1)`, which is non-negative and satisfies the
computational identity `var * n * (n-1) = n * Σ x² - (Σ x)²`. -/
theorem c4_statistics_total (values : List ℚ) :
    (∃ st, _calculate_statistics values = some st) ∧
    (∀ st, _calculate_statistics values = some st →
      (values ≠ [] → st.mean = meanSpec values) ∧
      (values.length < 2 → st.std_dev_sq = 0) ∧
      (2 ≤ values.length →
        st.std_dev_sq = sampleVarSpec values ∧
        0 ≤ st.std_dev_sq ∧
        st.std_dev_sq * ((values.length : ℚ) * ((values.length : ℚ) - 1))
          = (values.length : ℚ) * (values.map fun x => x ^ 2).sum
              - values.sum ^ 2)) := by
  refine ⟨⟨_, _calculate_statistics_eq values⟩, fun st hst => ?_⟩
  rw [_calculate_statistics_eq values] at hst
  cases Option.some.inj hst
  refine ⟨fun hne => ?_, fun hlt => ?_, fun hge => ?_⟩
  · simp [List.isEmpty_iff, hne]
  · have : ¬ 1 < values.length := by omega
    simp [this]
  · have h1 : 1 < values.length := by omega
    rw [if_pos h1]
    exact ⟨rfl, sampleVarSpec_nonneg values hge, sampleVarSpec_mul values hge⟩

/-- Witness for C4 on the two-value series `[3, 5]` (and, inside the proof,
on the single-value series `[3]`, whose record must carry `std_dev == 0`). -/
theorem c4_statistics_total_witness :
    (⟨4, 2⟩ : Stats).mean = meanSpec [3, 5] ∧
    (⟨4, 2⟩ : Stats).std_dev_sq = sampleVarSpec [3, 5] ∧
    0 ≤ (⟨4, 2⟩ : Stats).std_dev_sq ∧
    (⟨3, 0⟩ : Stats).std_dev_sq = 0 := by
  have h2 := (c4_statistics_total [3, 5]).2 ⟨4, 2⟩
    (by rw [_calculate_statistics_eq]; norm_num [meanSpec, sampleVarSpec])
  have h1 := (c4_statistics_total [3]).2 ⟨3, 0⟩
    (by rw [_calculate_statistics_eq]; norm_num [meanSpec])
  exact ⟨h2.1 (by simp), (h2.2.2 (by simp)).1, (h2.2.2 (by simp)).2.1,
    h1.2.1 (by simp)⟩

/-- C5: for every (test identifier, metric) pair, the aggregated mean, min
and max are invariant under any permutation of the run history, while the
`values` sequence stored in the aggregated entry is exactly the series of
that metric's values in original run order. -/
theorem c5_aggregation_order (runs runs' : List RunResult) (t m : String)
    (hp : runs.Perm runs') :
    (aggEntry runs t m).map AggEntry.mean
      = (aggEntry runs' t m).map AggEntry.mean ∧
    (aggEntry runs t m).map AggEntry.min
      = (aggEntry runs' t m).map AggEntry.min ∧
    (aggEntry runs t m).map AggEntry.max
      = (aggEntry runs' t m).map AggEntry.max ∧
    (∀ entry, aggEntry runs t m = some entry →
       entry.values = collectSeries runs t m) := by
  have hper : (collectSeries runs t m).Perm (collectSeries runs' t m) :=
    hp.filterMap _
  have hlen := hper.length_eq
  have hvals : ∀ entry, aggEntry runs t m = some entry →
      entry.values = collectSeries runs t m := by
    intro entry hentry
    rw [aggEntry_eq] at hentry
    by_cases he : (collectSeries runs t m).isEmpty
    · rw [if_pos he] at hentry; cases hentry
    · rw [if_neg he] at hentry
      cases Option.some.inj hentry
      rfl
  by_cases he : (collectSeries runs t m).isEmpty
  · have he' : (collectSeries runs' t m).isEmpty := by
      rw [List.isEmpty_iff_length_eq_zero] at he ⊢
      omega
    have e1 : aggEntry runs t m = none := by rw [aggEntry_eq, if_pos he]
    have e2 : aggEntry runs' t m = none := by rw [aggEntry_eq, if_pos he']
    refine ⟨?_, ?_, ?_, hvals⟩ <;> rw [e1, e2]
  · have he' : ¬ (collectSeries runs' t m).isEmpty := by
      rw [List.isEmpty_iff_length_eq_zero] at he ⊢
      omega
    have e1 := aggEntry_eq runs t m
    have e2 := aggEntry_eq runs' t m
    rw [if_neg he] at e1
    rw [if_neg he'] at e2
    refine ⟨?_, ?_, ?_, hvals⟩ <;>
      rw [e1, e2, Option.map_some', Option.map_some']
    · exact congrArg some (meanSpec_perm _ _ hper)
    · exact congrArg some (pymin_perm _ _ hper)
    · exact congrArg some (pymax_perm _ _ hper)

/-- Witness for C5: swapping two concrete runs. -/
theorem c5_aggregation_order_witness :
    (aggEntry [runA, runB] tKey mKey).map AggEntry.mean
      = (aggEntry [runB, runA] tKey mKey).map AggEntry.mean ∧
    (∀ entry, aggEntry [runA, runB] tKey mKey = some entry →
       entry.values = collectSeries [runA, runB] tKey mKey) := by
  have h := c5_aggregation_order [runA, runB] [runB, runA] tKey mKey
    (List.Perm.swap runB runA [])
  exact ⟨h.1, h.2.2.2⟩

/-- C6: a metric absent from a run (missing test, missing metric name, or a
non-numeric value) is silently skipped by the collection loops of
`_save_all_results`: the collected series is unchanged by such a run, a run
where the metric is present contributes exactly its value, the series
length equals the number of runs where the metric is present, and whenever
the series is nonempty the aggregated entry is still produced (aggregation
never fails because of the mismatch). -/
theorem c6_missing_metric_skipped (t m : String) (run : RunResult)
    (runs : List RunResult) :
    (metricPresent run t m = false →
       collectSeries (run :: runs) t m = collectSeries runs t m) ∧
    (∀ v, metricValue run t m = some v →
       collectSeries (run :: runs) t m = v :: collectSeries runs t m) ∧
    ((collectSeries (run :: runs) t m).length
       = ((run :: runs).filter fun r => metricPresent r t m).length) ∧
    (collectSeries (run :: runs) t m ≠ [] →
       ∃ entry, aggEntry (run :: runs) t m = some entry ∧
         entry.values = collectSeries (run :: runs) t m) := by
  refine ⟨fun habs => ?_, fun v hv => ?_, collectSeries_length _ t m,
    fun hne => ?_⟩
  · have hv : metricValue run t m = none := by
      rcases h : metricValue run t m with _ | v
      · rfl
      · rw [metricPresent, h] at habs; cases habs
    simp [collectSeries, List.filterMap_cons, hv]
  · simp [collectSeries, List.filterMap_cons, hv]
  · have he : (collectSeries (run :: runs) t m).isEmpty = false := by
      cases h : collectSeries (run :: runs) t m with
      | nil => exact absurd h hne
      | cons a l => rfl
    rw [aggEntry_eq, if_neg (by simp [he])]
    exact ⟨_, rfl, rfl⟩

/-- Witness for C6: a run lacking the metric contributes nothing, and the
two-run series still aggregates. -/
theorem c6_missing_metric_skipped_witness :
    collectSeries [runC, runA] tKey mKey = collectSeries [runA] tKey mKey ∧
    (∃ entry, aggEntry [runC, runA] tKey mKey = some entry ∧
       entry.values = collectSeries [runC, runA] tKey mKey) := by
  have h := c6_missing_metric_skipped tKey mKey runC [runA]
  exact ⟨h.1 (by decide), h.2.2.2 (by decide)⟩

theorem writeOffsets_of_trace (l : List ℕ) :
    writeOffsets (l.map IOEvent.write ++ [IOEvent.flush, IOEvent.fsync]) = l := by
  induction l with
  | nil => rfl
  | cons a t ih => simpa [writeOffsets, List.filterMap_cons] using ih

/-- C8: each random workload reports exactly `num_operations` timed
operations (the latency samples averaged into `avg_latency_ms`),
`iops = operations / elapsed` and `avg_latency_ms = elapsed / operations * 1000`
(milliseconds), and the random-write trace consists of exactly
`num_operations` block writes followed by one durability flush (and fsync)
inside the timed region, after all the writes.  Instantiated by its witness
at 100 operations over a 1 MiB file with 4 KiB blocks. -/
theorem c8_random_metrics (file_size num_operations block_size : ℕ)
    (rands : ℕ → ℕ) (s e : ℚ) (hn : 0 < num_operations) (hse : s < e) :
    (test_random_write file_size num_operations block_size rands s e).1.operations
      = num_operations ∧
    (writeOffsets
        (test_random_write file_size num_operations block_size rands s e).2).length
      = num_operations ∧
    (test_random_write file_size num_operations block_size rands s e).1.iops
      = (num_operations : ℚ) / (e - s) ∧
    (test_random_write file_size num_operations block_size rands s e).1.avg_latency_ms
      = (e - s) / (num_operations : ℚ) * 1000 ∧
    (∃ ws : List ℕ, ws.length = num_operations ∧
       (test_random_write file_size num_operations block_size rands s e).2
         = ws.map IOEvent.write ++ [IOEvent.flush, IOEvent.fsync]) ∧
    (test_random_read file_size num_operations block_size rands s e).1.operations
      = num_operations ∧
    (test_random_read file_size num_operations block_size rands s e).1.iops
      = (num_operations : ℚ) / (e - s) ∧
    (test_random_read file_size num_operations block_size rands s e).1.avg_latency_ms
      = (e - s) / (num_operations : ℚ) * 1000 := by
  have hpos : (0 : ℚ) < e - s := by linarith
  refine ⟨rfl, ?_, ?_, ?_, ?_, rfl, ?_, ?_⟩
  · rw [show (test_random_write file_size num_operations block_size rands s e).2
        = ((List.range num_operations).map fun i =>
            randomOffset file_size block_size (rands i)).map IOEvent.write
          ++ [IOEvent.flush, IOEvent.fsync] by
      simp [test_random_write, List.map_map, Function.comp]]
    rw [writeOffsets_of_trace]
    simp
  · simp [test_random_write, hpos]
  · simp [test_random_write, hn]
  · exact ⟨(List.range num_operations).map fun i =>
        randomOffset file_size block_size (rands i),
      by simp, by simp [test_random_write, List.map_map, Function.comp]⟩
  · simp [test_random_read, hpos]
  · simp [test_random_read, hn]

/-- Witness for C8: end-to-end scenario B (100 random-write operations over
a 1 MiB file with 4 KiB blocks). -/
theorem c8_random_metrics_witness :
    (test_random_write 1048576 100 4096 (fun i => i) 0 1).1.operations = 100 ∧
    (writeOffsets (test_random_write 1048576 100 4096 (fun i => i) 0 1).2).length
      = 100 ∧
    (test_random_write 1048576 100 4096 (fun i => i) 0 1).1.iops
      = ((100 : ℕ) : ℚ) / (1 - 0) := by
  have h := c8_random_metrics 1048576 100 4096 (fun i => i) 0 1 (by norm_num)
    (by norm_num)
  exact ⟨h.1, h.2.1, h.2.2.1⟩

/-- C9: the persisted report carries the timestamp, the scratch-directory
path, the run count, the full per-run raw results and the aggregated
statistics; for two runs both containing a (test identifier, metric) pair,
the pair's aggregated entry exists, its `values` sequence has length
exactly 2, and `min ≤ mean ≤ max`. -/
theorem c9_report_schema (ts td : String) (r1 r2 : RunResult) (t m : String)
    (h1 : metricPresent r1 t m = true) (h2 : metricPresent r2 t m = true) :
    (_save_all_results ts td [r1, r2]).timestamp = ts ∧
    (_save_all_results ts td [r1, r2]).test_directory = td ∧
    (_save_all_results ts td [r1, r2]).num_runs = 2 ∧
    (_save_all_results ts td [r1, r2]).all_runs = [r1, r2] ∧
    ∃ entry,
      (_save_all_results ts td [r1, r2]).aggregated_statistics t m = some entry ∧
      entry.values.length = 2 ∧
      entry.min ≤ entry.mean ∧ entry.mean ≤ entry.max := by
  have h1' : (metricValue r1 t m).isSome = true := h1
  have h2' : (metricValue r2 t m).isSome = true := h2
  obtain ⟨v1, hv1⟩ := Option.isSome_iff_exists.mp h1'
  obtain ⟨v2, hv2⟩ := Option.isSome_iff_exists.mp h2'
  have hcol : collectSeries [r1, r2] t m = [v1, v2] := by
    simp [collectSeries, List.filterMap_cons, hv1, hv2]
  have hne : collectSeries [r1, r2] t m ≠ [] := by rw [hcol]; simp
  have he : ¬ (collectSeries [r1, r2] t m).isEmpty = true := by
    rw [hcol]; simp
  have e1 := aggEntry_eq [r1, r2] t m
  rw [if_neg he] at e1
  refine ⟨rfl, rfl, rfl, rfl, _, e1, ?_, ?_, ?_⟩
  · show (collectSeries [r1, r2] t m).length = 2
    rw [hcol]
    rfl
  · show pymin (collectSeries [r1, r2] t m) ≤ meanSpec (collectSeries [r1, r2] t m)
    exact pymin_le_meanSpec _ hne
  · show meanSpec (collectSeries [r1, r2] t m) ≤ pymax (collectSeries [r1, r2] t m)
    exact meanSpec_le_pymax _ hne

/-- Witness for C9: end-to-end scenario D with two concrete runs. -/
theorem c9_report_schema_witness :
    (_save_all_results tsLit tdLit [runA, runB]).num_runs = 2 ∧
    ∃ entry,
      (_save_all_results tsLit tdLit [runA, runB]).aggregated_statistics tKey mKey
        = some entry ∧
      entry.values.length = 2 ∧
      entry.min ≤ entry.mean ∧ entry.mean ≤ entry.max := by
  have h := c9_report_schema tsLit tdLit runA runB tKey mKey (by decide) (by decide)
  exact ⟨h.2.2.1, h.2.2.2.2⟩

/-- C3: `test_file_deletion` re-discovers its working set by listing the
scratch directory: `files_deleted` equals the number of files matching the
`small_file_*.bin` pattern actually present, whatever its `num_files`
argument says, and no matching file remains afterwards; after creating 50
files of 4 KiB in an empty scratch directory, deletion reports
`files_deleted = 50` and the directory holds no matching file. -/
theorem c3_deletion_rescan (dir : Finset String) (num_files : ℕ) (s e : ℚ) :
    (test_file_deletion dir num_files s e).1.files_deleted
      = (dir.filter fun nm => matchesSmallFilePattern nm).card ∧
    ((test_file_deletion dir num_files s e).2.filter
        fun nm => matchesSmallFilePattern nm) = ∅ ∧
    (test_file_deletion (test_file_creation ∅ 50 4096 s e).2 50 s e).1.files_deleted
      = 50 ∧
    ((test_file_deletion (test_file_creation ∅ 50 4096 s e).2 50 s e).2.filter
        fun nm => matchesSmallFilePattern nm) = ∅ := by
  have hgen : ∀ (d : Finset String) (n : ℕ),
      ((test_file_deletion d n s e).2.filter
        fun nm => matchesSmallFilePattern nm) = ∅ := by
    intro d n
    ext nm
    simp only [test_file_deletion, Finset.mem_filter, Finset.mem_sdiff,
      Finset.not_mem_empty, iff_false, not_and]
    tauto
  refine ⟨rfl, hgen dir num_files, ?_, hgen _ 50⟩
  show (((∅ : Finset String) ∪ (Finset.range 50).image small_file_name).filter
      fun nm => matchesSmallFilePattern nm).card = 50
  decide

end FileIOBenchmark
